import Mathlib

/-!
Verification of the kfarms yield-farming accounting engine.

The repository source under `src/programs/kfarms/src/lib.rs` contains the
instruction dispatch layer and the `FarmError` enum.  The accounting core
(the `handlers`, `stake_operations`, `farm_operations` and `state` modules)
is declared there but its code is not part of the source tree; where a
definition below embeds that missing code it is modelled from the
specification and its doc comment says so explicitly.
-/

namespace KFarms

/-- Scale of the fixed-point decimal type (`decimal_wad` WAD, `10^18`). -/
def WAD : Nat := 10 ^ 18

/-- Exclusive upper bound of `u64` values. -/
def U64_BOUND : Nat := 2 ^ 64

/-- Exclusive upper bound of `u128` values. -/
def U128_BOUND : Nat := 2 ^ 128

/-- Exclusive upper bound of `U192` values (the scaled decimal payload). -/
def U192_BOUND : Nat := 2 ^ 192

/-- Error enum of the program, transcribed from `FarmError` in
`src/programs/kfarms/src/lib.rs` (variant order preserved). -/
inductive FarmError where
  | StakeZero
  | UnstakeZero
  | NothingToUnstake
  | NoRewardToHarvest
  | NoRewardInList
  | RewardAlreadyInitialized
  | MaxRewardNumberReached
  | RewardDoesNotExist
  | WrongRewardVaultAccount
  | RewardVaultMismatch
  | RewardVaultAuthorityMismatch
  | NothingStaked
  | IntegerOverflow
  | ConversionFailure
  | UnexpectedAccount
  | OperationForbidden
  | MathOverflow
  | MinClaimDurationNotReached
  | RewardsVaultHasDelegate
  | RewardsVaultHasCloseAuthority
  | FarmVaultHasDelegate
  | FarmVaultHasCloseAuthority
  | RewardsTreasuryVaultHasDelegate
  | RewardsTreasuryVaultHasCloseAuthority
  | UserAtaRewardVaultMintMissmatch
  | UserAtaFarmTokenMintMissmatch
  | TokenFarmTokenMintMissmatch
  | RewardAtaRewardMintMissmatch
  | RewardAtaOwnerNotFarmAdmin
  | InvalidGlobalConfigMode
  | RewardIndexOutOfRange
  | NothingToWithdraw
  | UserDelegatedFarmNonDelegatedMissmatch
  | AuthorityFarmDelegateMissmatch
  | FarmNotDelegated
  | FarmDelegated
  | UnstakeNotElapsed
  | PendingWithdrawalNotWithdrawnYet
  | DepositZero
  | InvalidConfigValue
  | InvalidPenaltyPercentage
  | EarlyWithdrawalNotAllowed
  | InvalidLockingTimestamps
  | InvalidRpsCurvePoint
  | InvalidTimestamp
  | DepositCapReached
  | MissingScopePrices
  | ScopeOraclePriceTooOld
  | InvalidOracleConfig
  | CouldNotDeserializeScope
deriving DecidableEq

/-- Error enum of the `decimal_wad` library.  The exhaustive one-arm `match`
in `impl From<DecimalError> for FarmError` (src lines 253-259) shows the
library enum has the single variant `MathOverflow`. -/
inductive DecimalError where
  | MathOverflow
deriving DecidableEq

/-- Embedding of `impl From<DecimalError> for FarmError`
(src/programs/kfarms/src/lib.rs lines 253-259). -/
def farmErrorFromDecimalError : DecimalError → FarmError
  | .MathOverflow => .MathOverflow

/-- The `decimal_wad` fixed-point decimal: a scaled unsigned integer whose
value is `scaledVal / WAD`. -/
structure Decimal where
  scaledVal : Nat
deriving DecidableEq

/-- Embedding of `Decimal::from_scaled_val`: the raw integer becomes the
scaled representation unchanged (a lossless `u128 → U192` widening). -/
def Decimal.from_scaled_val (v : Nat) : Decimal := ⟨v⟩

/-- Modelled from the spec: a reward-rate curve point `(timestamp, rate per
second)`; the curve code (`state` module) is not under `src/`. -/
abbrev CurvePoint := Nat × Nat

/-- Modelled from the spec (section 3, Reward Slot): per-reward bookkeeping.
The `state` module holding `RewardInfo` is not under `src/`. -/
structure RewardSlot where
  rewardPerShare : Nat
  rateCurve : List CurvePoint
  lastUpdateTs : Nat
deriving DecidableEq

/-- Modelled from the spec (section 3, Farm State): the farm record.  The
`state` module holding `FarmState` is not under `src/`.  Shares are stored
scaled by `WAD`; token amounts are plain integers. -/
structure FarmState where
  totalShares : Nat
  totalStakedTokens : Nat
  depositCap : Nat
  lockDuration : Nat
  earlyWithdrawalPenaltyBps : Nat
  earlyWithdrawalAllowed : Bool
  slashableBalance : Nat
  rewardSlots : List RewardSlot
deriving DecidableEq

/-- Modelled from the spec (section 3, User State): one per-reward pair of
accumulator snapshot and unclaimed balance, both scaled by `WAD`. -/
structure UserRewardEntry where
  accumulatorSnapshot : Nat
  unclaimed : Nat
deriving DecidableEq

/-- Modelled from the spec (sections 3 and 4.7): the optional record left by
an unstake request, consumed by the finalize phase. -/
structure PendingWithdrawal where
  unlockTimestamp : Nat
  amount : Nat
deriving DecidableEq

/-- Modelled from the spec (section 3, User State): one user's position in
one farm.  The `state` module holding `UserState` is not under `src/`. -/
structure UserState where
  stakedShares : Nat
  rewards : List UserRewardEntry
  pendingWithdrawal : Option PendingWithdrawal
  lastStakeTs : Nat
deriving DecidableEq

/-- Modelled from the spec (section 4.2): step-function evaluation of the
accrued reward of a rate curve over `[lo, hi]`.  Between consecutive points
the earlier rate applies; the last rate extends indefinitely; a curve with
no point before the interval contributes nothing (natural subtraction
clamps empty overlaps to zero).  The curve code is not under `src/`. -/
def curveEval : List CurvePoint → Nat → Nat → Nat
  | [], _, _ => 0
  | [(t, r)], lo, hi => r * (hi - max lo t)
  | (t, r) :: (t2, r2) :: rest, lo, hi =>
      r * (min hi t2 - max lo t) + curveEval ((t2, r2) :: rest) lo hi

/-- Segment list of a curve: each point paired with its rate and the start
of the next segment; the last segment ends at the evaluation horizon `hi`
(encoding that the last rate extends indefinitely). -/
def curveSegments : List CurvePoint → Nat → List (Nat × Nat × Nat)
  | [], _ => []
  | [(t, r)], hi => [(r, t, hi)]
  | (t, r) :: (t2, r2) :: rest, hi => (r, t, t2) :: curveSegments ((t2, r2) :: rest) hi

/-- The specification's formula for accrued reward over `[lo, hi]`: the sum
over overlapping segments of `r_i * (min hi t_next - max lo t_i)`. -/
def specAccrued (c : List CurvePoint) (lo hi : Nat) : Nat :=
  ((curveSegments c hi).map (fun s => s.1 * (min hi s.2.2 - max lo s.2.1))).sum

/-- Boolean check that curve timestamps are strictly increasing. -/
def strictlyIncreasingTs : List CurvePoint → Bool
  | [] => true
  | [_] => true
  | p :: q :: rest => decide (p.1 < q.1) && strictlyIncreasingTs (q :: rest)

/-- Scaled result of dividing an integer reward amount by a scaled share
total, as `Decimal::from(accrued) / Decimal(totalShares)`. -/
def decDivByShares (accrued totalShares : Nat) : Nat :=
  accrued * WAD * WAD / totalShares

/-- Shares minted for a token `amount` at the farm's current exchange rate
(`total_shares / total_staked_tokens`, or 1:1 when the pool is empty),
in scaled units. -/
def mintedShares (farm : FarmState) (amount : Nat) : Nat :=
  if farm.totalStakedTokens = 0 then amount * WAD
  else amount * farm.totalShares / farm.totalStakedTokens

/-- Token amount equivalent to `s` scaled shares at the farm's current
exchange rate, floored to an integer. -/
def unstakeTokenAmount (farm : FarmState) (s : Nat) : Nat :=
  s * farm.totalStakedTokens / farm.totalShares

/-- Modelled from the spec (section 4.3): the accumulator value of a slot
after refreshing at `now` — unchanged when `totalShares = 0` (the accrued
amount is forfeited), otherwise increased by the curve accrual over
`[last_update_ts, now]` divided by `totalShares`.  The
`handler_refresh_farm` / `farm_operations` code is not under `src/`. -/
def newRps (totalShares now : Nat) (slot : RewardSlot) : Nat :=
  if totalShares = 0 then slot.rewardPerShare
  else slot.rewardPerShare +
    decDivByShares (curveEval slot.rateCurve slot.lastUpdateTs now) totalShares

/-- Modelled from the spec (section 4.3), continued: the full slot refresh
combining the clock-regression check, the forfeit-or-accrue rule of
`newRps` and the checked-width test. -/
def refreshSlot (totalShares now : Nat) (slot : RewardSlot) : Except FarmError RewardSlot :=
  if now < slot.lastUpdateTs then .error .InvalidTimestamp
  else if newRps totalShares now slot < U192_BOUND then
    .ok { rewardPerShare := newRps totalShares now slot,
          rateCurve := slot.rateCurve, lastUpdateTs := now }
  else .error .MathOverflow

/-- Refresh every slot of a list, failing if any single refresh fails. -/
def refreshSlots (totalShares now : Nat) : List RewardSlot → Except FarmError (List RewardSlot)
  | [] => .ok []
  | s :: rest =>
    match refreshSlot totalShares now s with
    | .error e => .error e
    | .ok s1 =>
      match refreshSlots totalShares now rest with
      | .error e => .error e
      | .ok rest1 => .ok (s1 :: rest1)

/-- Modelled from the spec (section 4.3): farm refresh advances every
reward slot to `now`; all other farm fields are untouched.  The
`handler_refresh_farm` / `farm_operations` code is not under `src/`. -/
def refresh_farm (now : Nat) (farm : FarmState) : Except FarmError FarmState :=
  match refreshSlots farm.totalShares now farm.rewardSlots with
  | .error e => .error e
  | .ok slots =>
    .ok { farm with rewardSlots := slots }

/-- Modelled from the spec (section 4.4): user reconciliation of one reward
entry against its slot, with checked arithmetic. -/
def refreshUserEntries (ss : Nat) :
    List RewardSlot → List UserRewardEntry → Except FarmError (List UserRewardEntry)
  | _, [] => .ok []
  | [], es => .ok es
  | slot :: slots, e :: es =>
    if e.unclaimed + (slot.rewardPerShare - e.accumulatorSnapshot) * ss / WAD < U192_BOUND then
      match refreshUserEntries ss slots es with
      | .error err => .error err
      | .ok es1 =>
        .ok ({ accumulatorSnapshot := slot.rewardPerShare,
               unclaimed := e.unclaimed +
                 (slot.rewardPerShare - e.accumulatorSnapshot) * ss / WAD } :: es1)
    else .error .MathOverflow

/-- Modelled from the spec (section 4.4): user refresh reconciles every
reward entry against the farm's accumulators; shares, pending withdrawal
and stake timestamp are untouched.  The `handler_refresh_user_state` /
`stake_operations` code is not under `src/`. -/
def refresh_user (farm : FarmState) (user : UserState) : Except FarmError UserState :=
  match refreshUserEntries user.stakedShares farm.rewardSlots user.rewards with
  | .error e => .error e
  | .ok es => .ok { user with rewards := es }

/-- Modelled from the spec (section 4.5): stake.  Rejects a zero amount,
refreshes farm and user, enforces the deposit cap (a nonzero cap bounds
the post-stake total, which is what keeps the declared Farm State invariant
`total_staked_tokens ≤ deposit_cap`), then mints shares at the current
exchange rate with checked arithmetic.  The delegated-farm path is out of
the claims' scope and omitted.  The `handler_stake` / `stake_operations`
code is not under `src/`. -/
def stake (now amount : Nat) (farm : FarmState) (user : UserState) :
    Except FarmError (FarmState × UserState) :=
  if amount = 0 then .error .StakeZero
  else
    match refresh_farm now farm with
    | .error e => .error e
    | .ok farm1 =>
      match refresh_user farm1 user with
      | .error e => .error e
      | .ok user1 =>
        if farm1.depositCap ≠ 0 ∧ farm1.depositCap < farm1.totalStakedTokens + amount then
          .error .DepositCapReached
        else
          if farm1.totalStakedTokens + amount < U64_BOUND ∧
             farm1.totalShares + mintedShares farm1 amount < U192_BOUND ∧
             user1.stakedShares + mintedShares farm1 amount < U192_BOUND then
            .ok ({ farm1 with totalShares := farm1.totalShares + mintedShares farm1 amount,
                              totalStakedTokens := farm1.totalStakedTokens + amount },
                 { user1 with stakedShares := user1.stakedShares + mintedShares farm1 amount,
                              lastStakeTs := now })
          else .error .MathOverflow

/-- Modelled from the spec (section 4.6): unstake request phase.  Rejects
an outstanding pending withdrawal, a zero share amount and a share amount
above the user's balance; refreshes farm and user; converts shares to a
token amount at the current exchange rate; if the lock has elapsed the full
amount becomes a pending withdrawal unlocked at `now`, otherwise early
withdrawal (when allowed) routes the penalty to the farm's slashable
balance.  Shares and `total_staked_tokens` are burned at request time; only
the token transfer is deferred.  The `handler_unstake` /
`stake_operations` code is not under `src/`. -/
def unstake (now : Nat) (shares : Decimal) (farm : FarmState) (user : UserState) :
    Except FarmError (FarmState × UserState) :=
  if user.pendingWithdrawal.isSome then .error .PendingWithdrawalNotWithdrawnYet
  else if shares.scaledVal = 0 then .error .UnstakeZero
  else if user.stakedShares < shares.scaledVal then .error .NothingToUnstake
  else
    match refresh_farm now farm with
    | .error e => .error e
    | .ok farm1 =>
      match refresh_user farm1 user with
      | .error e => .error e
      | .ok user1 =>
        if farm1.totalShares = 0 then .error .NothingStaked
        else
          if farm1.lockDuration ≤ now - user1.lastStakeTs then
            .ok ({ farm1 with totalShares := farm1.totalShares - shares.scaledVal,
                              totalStakedTokens := farm1.totalStakedTokens -
                                unstakeTokenAmount farm1 shares.scaledVal },
                 { user1 with stakedShares := user1.stakedShares - shares.scaledVal,
                              pendingWithdrawal :=
                                some ⟨now, unstakeTokenAmount farm1 shares.scaledVal⟩ })
          else if farm1.earlyWithdrawalAllowed then
            .ok ({ farm1 with totalShares := farm1.totalShares - shares.scaledVal,
                              totalStakedTokens := farm1.totalStakedTokens -
                                unstakeTokenAmount farm1 shares.scaledVal,
                              slashableBalance := farm1.slashableBalance +
                                unstakeTokenAmount farm1 shares.scaledVal *
                                  farm1.earlyWithdrawalPenaltyBps / 10000 },
                 { user1 with stakedShares := user1.stakedShares - shares.scaledVal,
                              pendingWithdrawal :=
                                some ⟨now, unstakeTokenAmount farm1 shares.scaledVal -
                                  unstakeTokenAmount farm1 shares.scaledVal *
                                    farm1.earlyWithdrawalPenaltyBps / 10000⟩ })
          else .error .EarlyWithdrawalNotAllowed

/-- Zero the unclaimed balance of the entry at index `i`. -/
def zeroUnclaimedAt : Nat → List UserRewardEntry → List UserRewardEntry
  | _, [] => []
  | 0, e :: rest => { e with unclaimed := 0 } :: rest
  | n + 1, e :: rest => e :: zeroUnclaimedAt n rest

/-- Modelled from the spec (section 4.8): harvest.  Rejects an
out-of-range reward index, refreshes farm and user, rejects a zero
unclaimed balance, then zeroes the entry (the vault transfer is an
external collaborator action).  The `handler_harvest_reward` code is not
under `src/`. -/
def harvest_reward (now idx : Nat) (farm : FarmState) (user : UserState) :
    Except FarmError (FarmState × UserState) :=
  if farm.rewardSlots.length ≤ idx then .error .RewardIndexOutOfRange
  else
    match refresh_farm now farm with
    | .error e => .error e
    | .ok farm1 =>
      match refresh_user farm1 user with
      | .error e => .error e
      | .ok user1 =>
        if ((user1.rewards.get? idx).map (fun e => e.unclaimed)).getD 0 = 0 then
          .error .NoRewardToHarvest
        else .ok (farm1, { user1 with rewards := zeroUnclaimedAt idx user1.rewards })

/-- Modelled from the spec (section 4.7): finalize phase of the two-phase
unstake.  Requires an existing pending withdrawal whose unlock timestamp
has passed; clears the record and reports the amount to transfer.  The
`handler_withdraw_unstaked_deposits` code is not under `src/`. -/
def withdraw_unstaked_deposits (now : Nat) (user : UserState) :
    Except FarmError (UserState × Nat) :=
  match user.pendingWithdrawal with
  | none => .error .NothingToWithdraw
  | some pw =>
    if now < pw.unlockTimestamp then .error .UnstakeNotElapsed
    else .ok ({ user with pendingWithdrawal := none }, pw.amount)

/-- Modelled from the spec (section 4.9): slash / treasury withdrawal.
Privileged-caller-gated, preceded by a farm refresh, and moves the
slashable balance out to the treasury (reported as the returned amount).
The `handler_withdraw_slashed_amount` code is not under `src/`. -/
def withdraw_slashed_amount (now : Nat) (isAdmin : Bool) (farm : FarmState) :
    Except FarmError (FarmState × Nat) :=
  if !isAdmin then .error .OperationForbidden
  else
    match refresh_farm now farm with
    | .error e => .error e
    | .ok farm1 =>
      .ok ({ farm1 with slashableBalance := 0 }, farm1.slashableBalance)

/-- Modelled from the spec (sections 4.5-4.6, 6, 9): the admin farm-config
mutations the claims mention, as a tagged union validated at decode time.
A new nonzero deposit cap below the current staked total is rejected, as
required by the declared Farm State invariant; a penalty above 100% is
rejected with `InvalidPenaltyPercentage`; a non-increasing curve is
rejected with `InvalidRpsCurvePoint`.  The `handler_update_farm_config`
code is not under `src/`. -/
inductive FarmConfigUpdate where
  | updateLockDuration (v : Nat)
  | updatePenaltyBps (v : Nat)
  | updateDepositCap (v : Nat)
  | updateRateCurve (idx : Nat) (curve : List CurvePoint)
  | updateEarlyWithdrawalAllowed (b : Bool)
deriving DecidableEq

/-- Replace the rate curve of the slot at index `i`. -/
def setCurveAt : Nat → List CurvePoint → List RewardSlot → List RewardSlot
  | _, _, [] => []
  | 0, c, s :: rest => { s with rateCurve := c } :: rest
  | n + 1, c, s :: rest => s :: setCurveAt n c rest

/-- Modelled from the spec: admin mutation of the farm configuration (see
`FarmConfigUpdate`). -/
def update_farm_config (upd : FarmConfigUpdate) (farm : FarmState) :
    Except FarmError FarmState :=
  match upd with
  | .updateLockDuration v => .ok { farm with lockDuration := v }
  | .updatePenaltyBps v =>
    if v ≤ 10000 then .ok { farm with earlyWithdrawalPenaltyBps := v }
    else .error .InvalidPenaltyPercentage
  | .updateDepositCap v =>
    if v = 0 ∨ farm.totalStakedTokens ≤ v then .ok { farm with depositCap := v }
    else .error .InvalidConfigValue
  | .updateRateCurve idx c =>
    if idx < farm.rewardSlots.length then
      if strictlyIncreasingTs c then
        .ok { farm with rewardSlots := setCurveAt idx c farm.rewardSlots }
      else .error .InvalidRpsCurvePoint
    else .error .RewardDoesNotExist
  | .updateEarlyWithdrawalAllowed b => .ok { farm with earlyWithdrawalAllowed := b }

/-- Modelled from the spec (sections 3 and 6): the protocol-wide global
configuration singleton.  The `GlobalConfig` record of the `state` module
is not under `src/`; the fields are the spec's examples (paused flag,
protocol fee in basis points, admin key). -/
structure GlobalConfig where
  paused : Bool
  protocolFeeBps : Nat
  adminKey : Nat
deriving DecidableEq

/-- Modelled from the spec (section 9): the enumerated option tag of an
admin global-config update.  The `GlobalConfigOption` enum of the `state`
module is not under `src/`. -/
inductive GlobalConfigOption where
  | setPaused
  | setProtocolFeeBps
  | setAdminKey
deriving DecidableEq

/-- Modelled from `GlobalConfigOption::try_from` as invoked at
src/programs/kfarms/src/lib.rs lines 55-56: an unrecognized tag byte fails
with `InvalidGlobalConfigMode` before the handler runs. -/
def globalConfigOptionTryFrom (mode : Nat) : Except FarmError GlobalConfigOption :=
  if mode = 0 then .ok .setPaused
  else if mode = 1 then .ok .setProtocolFeeBps
  else if mode = 2 then .ok .setAdminKey
  else .error .InvalidGlobalConfigMode

/-- Little-endian interpretation of a byte list. -/
def bytesToNatLE : List Nat → Nat
  | [] => 0
  | b :: rest => b % 256 + 256 * bytesToNatLE rest

/-- Modelled from the spec (section 6) and src lines 50-58: decode the tag,
validate the value blob for that tag, and only then apply the mutation.
The `handler_update_global_config` code is not under `src/`. -/
def update_global_config (mode : Nat) (value : List Nat) (cfg : GlobalConfig) :
    Except FarmError GlobalConfig :=
  match globalConfigOptionTryFrom mode with
  | .error e => .error e
  | .ok .setPaused =>
    match value.headD 0 with
    | 0 => .ok { cfg with paused := false }
    | 1 => .ok { cfg with paused := true }
    | _ => .error .InvalidConfigValue
  | .ok .setProtocolFeeBps =>
    if bytesToNatLE (value.take 8) ≤ 10000 then
      .ok { cfg with protocolFeeBps := bytesToNatLE (value.take 8) }
    else .error .InvalidConfigValue
  | .ok .setAdminKey => .ok { cfg with adminKey := bytesToNatLE (value.take 32) }

/-- The persisted configuration after an update request: the new record on
success, the unchanged one on failure. -/
def runUpdateGlobalConfig (mode : Nat) (value : List Nat) (cfg : GlobalConfig) : GlobalConfig :=
  match update_global_config mode value cfg with
  | .ok c => c
  | .error _ => cfg

/-- Embedding of the `unstake` dispatch entrypoint
(src/programs/kfarms/src/lib.rs lines 108-110): the raw `u128` is wrapped
by `Decimal::from_scaled_val` and forwarded to the handler unchanged. -/
def unstakeDispatch (stakeSharesScaled now : Nat) (farm : FarmState) (user : UserState) :
    Except FarmError (FarmState × UserState) :=
  unstake now (Decimal.from_scaled_val stakeSharesScaled) farm user

/-- Round trip used by the spec's round-trip property: stake `a` at `now1`,
then unstake all of the user's shares at `now2`, returning the resulting
pending-withdrawal token amount (or `none` if any step fails). -/
def roundTrip (now1 now2 a : Nat) (farm : FarmState) (user : UserState) : Option Nat :=
  match stake now1 a farm user with
  | .error _ => none
  | .ok (f1, u1) =>
    match unstake now2 ⟨u1.stakedShares⟩ f1 u1 with
    | .error _ => none
    | .ok (_, u2) =>
      match u2.pendingWithdrawal with
      | none => none
      | some pw => some pw.amount

/-- The combined state an engine request operates on: one farm record and
one user record (engine calls are per-(farm, user), spec section 2). -/
structure EngineState where
  farm : FarmState
  user : UserState
deriving DecidableEq

/-- One engine operation together with its request-time inputs. -/
inductive EngineOp where
  | stakeOp (now amount : Nat)
  | unstakeOp (now sharesScaled : Nat)
  | harvestOp (now idx : Nat)
  | refreshOp (now : Nat)
  | withdrawOp (now : Nat)
  | slashOp (now : Nat) (isAdmin : Bool)
  | configOp (upd : FarmConfigUpdate)
deriving DecidableEq

/-- Apply one engine operation, producing the new state or a typed error. -/
def applyOp : EngineOp → EngineState → Except FarmError EngineState
  | .stakeOp now a, st =>
    match stake now a st.farm st.user with
    | .error e => .error e
    | .ok (f, u) => .ok ⟨f, u⟩
  | .unstakeOp now s, st =>
    match unstake now ⟨s⟩ st.farm st.user with
    | .error e => .error e
    | .ok (f, u) => .ok ⟨f, u⟩
  | .harvestOp now i, st =>
    match harvest_reward now i st.farm st.user with
    | .error e => .error e
    | .ok (f, u) => .ok ⟨f, u⟩
  | .refreshOp now, st =>
    match refresh_farm now st.farm with
    | .error e => .error e
    | .ok f => .ok ⟨f, st.user⟩
  | .withdrawOp now, st =>
    match withdraw_unstaked_deposits now st.user with
    | .error e => .error e
    | .ok (u, _) => .ok ⟨st.farm, u⟩
  | .slashOp now adm, st =>
    match withdraw_slashed_amount now adm st.farm with
    | .error e => .error e
    | .ok (f, _) => .ok ⟨f, st.user⟩
  | .configOp upd, st =>
    match update_farm_config upd st.farm with
    | .error e => .error e
    | .ok f => .ok ⟨f, st.user⟩

/-- The persisted state after one request: the new state on success, the
unchanged input state on failure (commit-on-success, spec section 5). -/
def runOp (op : EngineOp) (st : EngineState) : EngineState :=
  match applyOp op st with
  | .ok st1 => st1
  | .error _ => st

/-- Run a sequence of engine operations. -/
def runOps : List EngineOp → EngineState → EngineState
  | [], st => st
  | op :: rest, st => runOps rest (runOp op st)

/-- The Farm State invariant of spec section 3: shares and staked tokens
vanish together, and a nonzero deposit cap bounds the staked total. -/
def farmInv (f : FarmState) : Prop :=
  (f.totalShares = 0 ↔ f.totalStakedTokens = 0) ∧
  (f.depositCap ≠ 0 → f.totalStakedTokens ≤ f.depositCap)

instance (f : FarmState) : Decidable (farmInv f) := by
  unfold farmInv
  infer_instance

/-- A freshly initialized farm: no shares, no tokens, no slots. -/
def initFarm : FarmState :=
  { totalShares := 0, totalStakedTokens := 0, depositCap := 0, lockDuration := 0,
    earlyWithdrawalPenaltyBps := 0, earlyWithdrawalAllowed := false,
    slashableBalance := 0, rewardSlots := [] }

/-- A freshly initialized user: no shares, no reward entries, no pending
withdrawal. -/
def initUser : UserState :=
  { stakedShares := 0, rewards := [], pendingWithdrawal := none, lastStakeTs := 0 }

/-- Initial engine state built from the fresh farm and user. -/
def st0 : EngineState := ⟨initFarm, initUser⟩

/-- A farm whose exchange rate is extreme (one scaled share unit backing a
thousand tokens), with a single zero-rate reward slot. -/
def cexFarm : FarmState :=
  { totalShares := 1, totalStakedTokens := 1000, depositCap := 0, lockDuration := 0,
    earlyWithdrawalPenaltyBps := 0, earlyWithdrawalAllowed := false,
    slashableBalance := 0,
    rewardSlots := [{ rewardPerShare := 0, rateCurve := [(0, 0)], lastUpdateTs := 0 }] }

/-- A fresh user of `cexFarm` with one reward entry. -/
def cexUser : UserState :=
  { stakedShares := 0, rewards := [{ accumulatorSnapshot := 0, unclaimed := 0 }],
    pendingWithdrawal := none, lastStakeTs := 0 }

/-- A farm at the usual 1:1 exchange rate: five tokens backing five whole
shares, with no reward slot. -/
def w7Farm : FarmState :=
  { totalShares := 5 * WAD, totalStakedTokens := 5, depositCap := 0, lockDuration := 0,
    earlyWithdrawalPenaltyBps := 0, earlyWithdrawalAllowed := false,
    slashableBalance := 0, rewardSlots := [] }

/-- A fresh user of `w7Farm`. -/
def w7User : UserState :=
  { stakedShares := 0, rewards := [], pendingWithdrawal := none, lastStakeTs := 0 }

/-- A farm with one whole share staked and a flat unit-rate reward curve
starting at time 0. -/
def w3Farm : FarmState :=
  { totalShares := WAD, totalStakedTokens := 1, depositCap := 0, lockDuration := 0,
    earlyWithdrawalPenaltyBps := 0, earlyWithdrawalAllowed := false,
    slashableBalance := 0,
    rewardSlots := [{ rewardPerShare := 0, rateCurve := [(0, 1)], lastUpdateTs := 0 }] }

/-- A farm with no stake and a flat unit-rate reward curve, used to observe
forfeiture of accrual while `total_shares = 0`. -/
def w5Farm : FarmState :=
  { totalShares := 0, totalStakedTokens := 0, depositCap := 0, lockDuration := 0,
    earlyWithdrawalPenaltyBps := 0, earlyWithdrawalAllowed := false,
    slashableBalance := 0,
    rewardSlots := [{ rewardPerShare := 0, rateCurve := [(0, 1)], lastUpdateTs := 0 }] }

/-- A farm with ten tokens backing ten whole shares and no reward slot. -/
def w6Farm : FarmState :=
  { totalShares := 10 * WAD, totalStakedTokens := 10, depositCap := 0, lockDuration := 0,
    earlyWithdrawalPenaltyBps := 0, earlyWithdrawalAllowed := false,
    slashableBalance := 0, rewardSlots := [] }

/-- A user of `w6Farm` holding four whole shares. -/
def w6User : UserState :=
  { stakedShares := 4 * WAD, rewards := [], pendingWithdrawal := none, lastStakeTs := 0 }

/-- `w6Farm` after an unstake request of three whole shares. -/
def w6FarmAfter : FarmState := { w6Farm with totalShares := 7 * WAD, totalStakedTokens := 7 }

/-- `w6User` after an unstake request of three whole shares at time 5. -/
def w6UserAfter : UserState :=
  { w6User with stakedShares := WAD, pendingWithdrawal := some ⟨5, 3⟩ }

/-- An unpaused global configuration with zero fee and admin key 0. -/
def cfg0 : GlobalConfig := { paused := false, protocolFeeBps := 0, adminKey := 0 }

lemma refresh_farm_ok_fields {now : Nat} {f f' : FarmState}
    (h : refresh_farm now f = .ok f') :
    f'.totalShares = f.totalShares ∧ f'.totalStakedTokens = f.totalStakedTokens ∧
    f'.depositCap = f.depositCap ∧ f'.lockDuration = f.lockDuration ∧
    f'.earlyWithdrawalPenaltyBps = f.earlyWithdrawalPenaltyBps ∧
    f'.earlyWithdrawalAllowed = f.earlyWithdrawalAllowed ∧
    f'.slashableBalance = f.slashableBalance := by
  unfold refresh_farm at h
  split at h
  · exact Except.noConfusion h
  · injection h with h1
    subst h1
    exact ⟨rfl, rfl, rfl, rfl, rfl, rfl, rfl⟩

lemma refresh_farm_ok_slots {now : Nat} {f f' : FarmState}
    (h : refresh_farm now f = .ok f') :
    refreshSlots f.totalShares now f.rewardSlots = .ok f'.rewardSlots := by
  unfold refresh_farm at h
  split at h
  · exact Except.noConfusion h
  · injection h with h1
    subst h1
    assumption

lemma refresh_user_ok_fields {farm : FarmState} {u u' : UserState}
    (h : refresh_user farm u = .ok u') :
    u'.stakedShares = u.stakedShares ∧ u'.pendingWithdrawal = u.pendingWithdrawal ∧
    u'.lastStakeTs = u.lastStakeTs := by
  unfold refresh_user at h
  split at h
  · exact Except.noConfusion h
  · injection h with h1
    subst h1
    exact ⟨rfl, rfl, rfl⟩

lemma refreshSlot_ok_spec {S now : Nat} {s s' : RewardSlot}
    (h : refreshSlot S now s = .ok s') :
    s'.lastUpdateTs = now ∧ s'.rateCurve = s.rateCurve ∧
    s'.rewardPerShare = newRps S now s := by
  unfold refreshSlot at h
  split at h
  · exact Except.noConfusion h
  · split at h
    · injection h with h1
      subst h1
      exact ⟨rfl, rfl, rfl⟩
    · exact Except.noConfusion h

lemma refreshSlots_ok_get {S now : Nat} :
    ∀ {l l' : List RewardSlot}, refreshSlots S now l = .ok l' →
    ∀ {i : Nat} {s s' : RewardSlot}, l[i]? = some s → l'[i]? = some s' →
    refreshSlot S now s = .ok s' := by
  intro l
  induction l with
  | nil =>
    intro l' h i s s' hs hs'
    simp at hs
  | cons a rest ih =>
    intro l' h i s s' hs hs'
    unfold refreshSlots at h
    split at h
    · exact Except.noConfusion h
    · rename_i a1 ha1
      split at h
      · exact Except.noConfusion h
      · rename_i rest1 hrest1
        injection h with h1
        subst h1
        match i with
        | 0 =>
          simp at hs hs'
          subst hs
          subst hs'
          exact ha1
        | Nat.succ j =>
          simp at hs hs'
          exact ih hrest1 hs hs'

/-- Claim C3: the `reward_per_share` accumulator of any reward slot never
decreases across successive successful farm refreshes invoked at
non-decreasing timestamps. -/
theorem refresh_reward_per_share_monotone {f f1 f2 : FarmState} {t1 t2 i : Nat}
    {s1 s2 : RewardSlot}
    (h1 : refresh_farm t1 f = .ok f1) (h2 : refresh_farm t2 f1 = .ok f2)
    (ht : t1 ≤ t2)
    (hs1 : f1.rewardSlots[i]? = some s1) (hs2 : f2.rewardSlots[i]? = some s2) :
    s1.rewardPerShare ≤ s2.rewardPerShare := by
  have hstep := refreshSlots_ok_get (refresh_farm_ok_slots h2) hs1 hs2
  obtain ⟨-, -, hrps⟩ := refreshSlot_ok_spec hstep
  rw [hrps]
  unfold newRps
  split
  · exact Nat.le_refl _
  · exact Nat.le_add_right _ _

/-- Witness for C3: refreshing a one-share farm with a flat unit-rate curve
at times 3 and then 5 moves the accumulator from 3 to 5 whole units. -/
theorem refresh_reward_per_share_monotone_witness :
    ({ rewardPerShare := 3 * WAD, rateCurve := [(0, 1)], lastUpdateTs := 3} :
      RewardSlot).rewardPerShare ≤
    ({ rewardPerShare := 5 * WAD, rateCurve := [(0, 1)], lastUpdateTs := 5} :
      RewardSlot).rewardPerShare :=
  @refresh_reward_per_share_monotone
    w3Farm
    { w3Farm with rewardSlots :=
      [{ rewardPerShare := 3 * WAD, rateCurve := [(0, 1)], lastUpdateTs := 3 }] }
    { w3Farm with rewardSlots :=
      [{ rewardPerShare := 5 * WAD, rateCurve := [(0, 1)], lastUpdateTs := 5 }] }
    3 5 0
    { rewardPerShare := 3 * WAD, rateCurve := [(0, 1)], lastUpdateTs := 3 }
    { rewardPerShare := 5 * WAD, rateCurve := [(0, 1)], lastUpdateTs := 5 }
    rfl rfl (by decide) rfl rfl

/-- Claim C5: a successful farm refresh always stamps every slot with the
new timestamp; while `total_shares = 0` it leaves the `reward_per_share`
accumulator unchanged (the curve accrual over the window is forfeited, and
the model state has no field in which it could be banked); while
`total_shares > 0` it adds exactly the accrued amount divided by
`total_shares`. -/
theorem refresh_farm_forfeits_when_unstaked {f f' : FarmState} {now i : Nat}
    {s s' : RewardSlot}
    (h : refresh_farm now f = .ok f')
    (hs : f.rewardSlots[i]? = some s) (hs' : f'.rewardSlots[i]? = some s') :
    s'.lastUpdateTs = now ∧
    (f.totalShares = 0 → s'.rewardPerShare = s.rewardPerShare) ∧
    (f.totalShares ≠ 0 →
      s'.rewardPerShare = s.rewardPerShare +
        decDivByShares (curveEval s.rateCurve s.lastUpdateTs now) f.totalShares) := by
  have hstep := refreshSlots_ok_get (refresh_farm_ok_slots h) hs hs'
  obtain ⟨hts, -, hrps⟩ := refreshSlot_ok_spec hstep
  refine ⟨hts, ?_, ?_⟩
  · intro h0
    rw [hrps]
    unfold newRps
    rw [if_pos h0]
  · intro h0
    rw [hrps]
    unfold newRps
    rw [if_neg h0]

/-- Witness for C5: refreshing the unstaked farm `w5Farm` at time 4 leaves
the accumulator at zero even though the unit-rate curve accrued 4 units,
and stamps the slot with timestamp 4. -/
theorem refresh_farm_forfeits_when_unstaked_witness :
    ({ rewardPerShare := 0, rateCurve := [(0, 1)], lastUpdateTs := 4 } :
      RewardSlot).lastUpdateTs = 4 ∧
    (w5Farm.totalShares = 0 →
      ({ rewardPerShare := 0, rateCurve := [(0, 1)], lastUpdateTs := 4 } :
        RewardSlot).rewardPerShare =
      ({ rewardPerShare := 0, rateCurve := [(0, 1)], lastUpdateTs := 0 } :
        RewardSlot).rewardPerShare) ∧
    (w5Farm.totalShares ≠ 0 →
      ({ rewardPerShare := 0, rateCurve := [(0, 1)], lastUpdateTs := 4 } :
        RewardSlot).rewardPerShare =
      ({ rewardPerShare := 0, rateCurve := [(0, 1)], lastUpdateTs := 0 } :
        RewardSlot).rewardPerShare +
        decDivByShares
          (curveEval [(0, 1)] 0 4) w5Farm.totalShares) :=
  @refresh_farm_forfeits_when_unstaked
    w5Farm
    { w5Farm with rewardSlots :=
      [{ rewardPerShare := 0, rateCurve := [(0, 1)], lastUpdateTs := 4 }] }
    4 0
    { rewardPerShare := 0, rateCurve := [(0, 1)], lastUpdateTs := 0 }
    { rewardPerShare := 0, rateCurve := [(0, 1)], lastUpdateTs := 4 }
    rfl rfl rfl

lemma mintedShares_congr {f g : FarmState} (hS : f.totalShares = g.totalShares)
    (hT : f.totalStakedTokens = g.totalStakedTokens) (a : Nat) :
    mintedShares f a = mintedShares g a := by
  unfold mintedShares
  rw [hS, hT]

lemma unstakeTokenAmount_congr {f g : FarmState} (hS : f.totalShares = g.totalShares)
    (hT : f.totalStakedTokens = g.totalStakedTokens) (s : Nat) :
    unstakeTokenAmount f s = unstakeTokenAmount g s := by
  unfold unstakeTokenAmount
  rw [hS, hT]

lemma stake_ok_spec {now a : Nat} {farm f1 : FarmState} {user u1 : UserState}
    (h : stake now a farm user = .ok (f1, u1)) :
    a ≠ 0 ∧
    f1.totalShares = farm.totalShares + mintedShares farm a ∧
    f1.totalStakedTokens = farm.totalStakedTokens + a ∧
    f1.depositCap = farm.depositCap ∧
    f1.lockDuration = farm.lockDuration ∧
    f1.earlyWithdrawalPenaltyBps = farm.earlyWithdrawalPenaltyBps ∧
    u1.stakedShares = user.stakedShares + mintedShares farm a ∧
    u1.lastStakeTs = now ∧
    u1.pendingWithdrawal = user.pendingWithdrawal ∧
    (farm.depositCap ≠ 0 → farm.totalStakedTokens + a ≤ farm.depositCap) := by
  unfold stake at h
  split at h
  · exact Except.noConfusion h
  · rename_i ha
    split at h
    · exact Except.noConfusion h
    · rename_i farm1 hrf
      split at h
      · exact Except.noConfusion h
      · rename_i user1 hru
        obtain ⟨hfS, hfT, hfC, hfL, hfP, hfA, hfB⟩ := refresh_farm_ok_fields hrf
        obtain ⟨huS, huP, huL⟩ := refresh_user_ok_fields hru
        split at h
        · exact Except.noConfusion h
        · rename_i hcap
          split at h
          · injection h with h1
            injection h1 with h2 h3
            subst h2
            subst h3
            have hmint : mintedShares farm1 a = mintedShares farm a :=
              mintedShares_congr hfS hfT a
            refine ⟨ha, ?_, ?_, hfC, hfL, hfP, ?_, rfl, huP, ?_⟩
            · simp only [hmint, hfS]
            · simp only [hfT]
            · simp only [hmint, huS]
            · intro hc
              rw [← hfC, ← hfT]
              rw [← hfC] at hc
              omega
          · exact Except.noConfusion h

lemma unstake_ok_spec {now s : Nat} {farm f1 : FarmState} {user u1 : UserState}
    (h : unstake now ⟨s⟩ farm user = .ok (f1, u1)) :
    s ≠ 0 ∧ s ≤ user.stakedShares ∧ user.pendingWithdrawal = none ∧
    farm.totalShares ≠ 0 ∧
    f1.totalShares = farm.totalShares - s ∧
    f1.totalStakedTokens = farm.totalStakedTokens - unstakeTokenAmount farm s ∧
    f1.depositCap = farm.depositCap ∧
    u1.stakedShares = user.stakedShares - s ∧
    ∃ pw, u1.pendingWithdrawal = some pw ∧ pw.unlockTimestamp = now ∧
      (farm.lockDuration ≤ now - user.lastStakeTs →
        pw.amount = unstakeTokenAmount farm s) := by
  unfold unstake at h
  split at h
  · exact Except.noConfusion h
  · rename_i hpend
    split at h
    · exact Except.noConfusion h
    · rename_i hs0
      split at h
      · exact Except.noConfusion h
      · rename_i hsle
        split at h
        · exact Except.noConfusion h
        · rename_i farm1 hrf
          split at h
          · exact Except.noConfusion h
          · rename_i user1 hru
            obtain ⟨hfS, hfT, hfC, hfL, hfP, hfA, hfB⟩ := refresh_farm_ok_fields hrf
            obtain ⟨huS, huP, huL⟩ := refresh_user_ok_fields hru
            have hamt : unstakeTokenAmount farm1 s = unstakeTokenAmount farm s :=
              unstakeTokenAmount_congr hfS hfT s
            have hpnone : user.pendingWithdrawal = none :=
              Option.not_isSome_iff_eq_none.mp hpend
            split at h
            · exact Except.noConfusion h
            · rename_i hSnz
              split at h
              · rename_i hlock
                injection h with h1
                injection h1 with h2 h3
                subst h2
                subst h3
                refine ⟨hs0, Nat.le_of_not_lt hsle, hpnone, ?_, ?_, ?_, hfC, ?_, ?_⟩
                · rw [← hfS]
                  exact hSnz
                · simp only [hfS]
                · simp only [hamt, hfT]
                · simp only [huS]
                · exact ⟨_, rfl, rfl, fun _ => hamt⟩
              · split at h
                · injection h with h1
                  injection h1 with h2 h3
                  subst h2
                  subst h3
                  refine ⟨hs0, Nat.le_of_not_lt hsle, hpnone, ?_, ?_, ?_, hfC, ?_, ?_⟩
                  · rw [← hfS]
                    exact hSnz
                  · simp only [hfS]
                  · simp only [hamt, hfT]
                  · simp only [huS]
                  · refine ⟨_, rfl, rfl, fun hl => ?_⟩
                    rename_i hnotlock _
                    rw [hfL, huL] at hnotlock
                    exact absurd hl hnotlock
                · exact Except.noConfusion h

/-- Claim C6: a successful unstake request burns the shares from both the
user's balance and the farm's total, decreases `total_staked_tokens` by the
computed token amount at request time, and creates a pending-withdrawal
record unlocked at `now` whose amount (when the lock duration has elapsed)
is exactly that token amount; only the transfer is deferred. -/
theorem unstake_request_effects {now sh : Nat} {farm f1 : FarmState}
    {user u1 : UserState}
    (h : unstake now ⟨sh⟩ farm user = .ok (f1, u1)) :
    u1.stakedShares = user.stakedShares - sh ∧
    f1.totalShares = farm.totalShares - sh ∧
    f1.totalStakedTokens = farm.totalStakedTokens - unstakeTokenAmount farm sh ∧
    ∃ pw, u1.pendingWithdrawal = some pw ∧ pw.unlockTimestamp = now ∧
      (farm.lockDuration ≤ now - user.lastStakeTs →
        pw.amount = unstakeTokenAmount farm sh) := by
  obtain ⟨-, -, -, -, hS, hT, -, hu, hpw⟩ := unstake_ok_spec h
  exact ⟨hu, hS, hT, hpw⟩

/-- Witness for C6: unstaking three of four whole shares from the ten-token
ten-share farm burns the shares from both totals, removes three tokens,
and leaves a pending withdrawal of three tokens unlocked at time 5. -/
theorem unstake_request_effects_witness :
    w6UserAfter.stakedShares = w6User.stakedShares - 3 * WAD ∧
    w6FarmAfter.totalShares = w6Farm.totalShares - 3 * WAD ∧
    w6FarmAfter.totalStakedTokens =
      w6Farm.totalStakedTokens - unstakeTokenAmount w6Farm (3 * WAD) ∧
    ∃ pw, w6UserAfter.pendingWithdrawal = some pw ∧ pw.unlockTimestamp = 5 ∧
      (w6Farm.lockDuration ≤ 5 - w6User.lastStakeTs →
        pw.amount = unstakeTokenAmount w6Farm (3 * WAD)) :=
  @unstake_request_effects 5 (3 * WAD) w6Farm w6FarmAfter w6User w6UserAfter rfl

lemma amt_lt_of_lt {s S T : Nat} (hT : 0 < T) (hs : s < S) : s * T / S < T := by
  have hS : 0 < S := Nat.lt_of_le_of_lt (Nat.zero_le _) hs
  rw [Nat.div_lt_iff_lt_mul hS]
  calc s * T < S * T := mul_lt_mul_of_pos_right hs hT
  _ = T * S := Nat.mul_comm _ _

lemma amt_eq_of_eq {S T : Nat} (hS : 0 < S) : S * T / S = T := by
  rw [Nat.mul_comm, Nat.mul_div_cancel _ hS]

lemma le_amt_of_le {s S T : Nat} (hS : 0 < S) (h : S ≤ s) : T ≤ s * T / S := by
  rw [Nat.le_div_iff_mul_le hS]
  calc T * S ≤ T * s := Nat.mul_le_mul_left T h
  _ = s * T := Nat.mul_comm _ _

lemma stake_preserves_inv {now a : Nat} {farm f1 : FarmState} {user u1 : UserState}
    (hInv : farmInv farm) (h : stake now a farm user = .ok (f1, u1)) : farmInv f1 := by
  obtain ⟨ha, hS, hT, hC, -, -, -, -, -, hcap⟩ := stake_ok_spec h
  obtain ⟨m, hm⟩ : ∃ m, mintedShares farm a = m := ⟨_, rfl⟩
  rw [hm] at hS
  constructor
  · rw [hS, hT]
    by_cases hT0 : farm.totalStakedTokens = 0
    · have hS0 : farm.totalShares = 0 := hInv.1.mpr hT0
      have hmne : m ≠ 0 := by
        rw [← hm]
        unfold mintedShares
        rw [if_pos hT0]
        have hw : WAD ≠ 0 := by decide
        exact Nat.mul_ne_zero ha hw
      omega
    · have hS0 : farm.totalShares ≠ 0 := fun h0 => hT0 (hInv.1.mp h0)
      omega
  · rw [hT, hC]
    exact hcap

lemma unstake_preserves_inv {now s : Nat} {farm f1 : FarmState} {user u1 : UserState}
    (hInv : farmInv farm) (h : unstake now ⟨s⟩ farm user = .ok (f1, u1)) : farmInv f1 := by
  obtain ⟨hs0, -, -, hSnz, hS, hT, hC, -, -⟩ := unstake_ok_spec h
  have hTnz : farm.totalStakedTokens ≠ 0 := fun h0 => hSnz (hInv.1.mpr h0)
  obtain ⟨A, hA⟩ : ∃ A, unstakeTokenAmount farm s = A := ⟨_, rfl⟩
  rw [hA] at hT
  have hlt : s < farm.totalShares → A < farm.totalStakedTokens := by
    intro hl
    rw [← hA]
    exact amt_lt_of_lt (Nat.pos_of_ne_zero hTnz) hl
  have heq : s = farm.totalShares → A = farm.totalStakedTokens := by
    intro he
    rw [← hA]
    unfold unstakeTokenAmount
    rw [he]
    exact amt_eq_of_eq (Nat.pos_of_ne_zero hSnz)
  have hge : farm.totalShares ≤ s → farm.totalStakedTokens ≤ A := by
    intro hl
    rw [← hA]
    exact le_amt_of_le (Nat.pos_of_ne_zero hSnz) hl
  constructor
  · rw [hS, hT]
    omega
  · rw [hT, hC]
    intro hc
    have := hInv.2 hc
    omega

lemma refresh_farm_preserves_inv {now : Nat} {farm f1 : FarmState}
    (hInv : farmInv farm) (h : refresh_farm now farm = .ok f1) : farmInv f1 := by
  obtain ⟨a, b, c, -⟩ := refresh_farm_ok_fields h
  unfold farmInv
  rw [a, b, c]
  exact hInv

lemma harvest_ok_farm {now i : Nat} {farm f1 : FarmState} {user u1 : UserState}
    (h : harvest_reward now i farm user = .ok (f1, u1)) :
    refresh_farm now farm = .ok f1 := by
  unfold harvest_reward at h
  split at h
  · exact Except.noConfusion h
  · split at h
    · exact Except.noConfusion h
    · rename_i farm1 hrf
      split at h
      · exact Except.noConfusion h
      · rename_i user1 hru
        split at h
        · exact Except.noConfusion h
        · injection h with h1
          injection h1 with h2 h3
          subst h2
          exact hrf

lemma slash_ok_fields {now : Nat} {adm : Bool} {farm f1 : FarmState} {amt : Nat}
    (h : withdraw_slashed_amount now adm farm = .ok (f1, amt)) :
    f1.totalShares = farm.totalShares ∧ f1.totalStakedTokens = farm.totalStakedTokens ∧
    f1.depositCap = farm.depositCap := by
  unfold withdraw_slashed_amount at h
  split at h
  · exact Except.noConfusion h
  · split at h
    · exact Except.noConfusion h
    · rename_i farm1 hrf
      injection h with h1
      injection h1 with h2 h3
      subst h2
      obtain ⟨a, b, c, -⟩ := refresh_farm_ok_fields hrf
      exact ⟨a, b, c⟩

lemma update_farm_config_preserves_inv {upd : FarmConfigUpdate} {farm f1 : FarmState}
    (hInv : farmInv farm) (h : update_farm_config upd farm = .ok f1) : farmInv f1 := by
  cases upd with
  | updateLockDuration v =>
    simp only [update_farm_config] at h
    injection h with h1
    subst h1
    exact hInv
  | updatePenaltyBps v =>
    simp only [update_farm_config] at h
    split at h
    · injection h with h1
      subst h1
      exact hInv
    · exact Except.noConfusion h
  | updateDepositCap v =>
    simp only [update_farm_config] at h
    split at h
    · rename_i hv
      injection h with h1
      subst h1
      refine ⟨hInv.1, ?_⟩
      intro hc
      show farm.totalStakedTokens ≤ v
      have hc' : v ≠ 0 := hc
      omega
    · exact Except.noConfusion h
  | updateRateCurve idx c =>
    simp only [update_farm_config] at h
    split at h
    · split at h
      · injection h with h1
        subst h1
        exact hInv
      · exact Except.noConfusion h
    · exact Except.noConfusion h
  | updateEarlyWithdrawalAllowed b =>
    simp only [update_farm_config] at h
    injection h with h1
    subst h1
    exact hInv

lemma runOp_preserves_inv {op : EngineOp} {st : EngineState}
    (hInv : farmInv st.farm) : farmInv (runOp op st).farm := by
  unfold runOp
  cases hap : applyOp op st with
  | error e => exact hInv
  | ok st1 =>
    cases op with
    | stakeOp now a =>
      simp only [applyOp] at hap
      split at hap
      · exact Except.noConfusion hap
      · rename_i f u hfu
        injection hap with h1
        subst h1
        exact stake_preserves_inv hInv hfu
    | unstakeOp now s =>
      simp only [applyOp] at hap
      split at hap
      · exact Except.noConfusion hap
      · rename_i f u hfu
        injection hap with h1
        subst h1
        exact unstake_preserves_inv hInv hfu
    | harvestOp now i =>
      simp only [applyOp] at hap
      split at hap
      · exact Except.noConfusion hap
      · rename_i f u hfu
        injection hap with h1
        subst h1
        exact refresh_farm_preserves_inv hInv (harvest_ok_farm hfu)
    | refreshOp now =>
      simp only [applyOp] at hap
      split at hap
      · exact Except.noConfusion hap
      · rename_i f hf
        injection hap with h1
        subst h1
        exact refresh_farm_preserves_inv hInv hf
    | withdrawOp now =>
      simp only [applyOp] at hap
      split at hap
      · exact Except.noConfusion hap
      · rename_i u amt hu
        injection hap with h1
        subst h1
        exact hInv
    | slashOp now adm =>
      simp only [applyOp] at hap
      split at hap
      · exact Except.noConfusion hap
      · rename_i f amt hf
        injection hap with h1
        subst h1
        obtain ⟨a, b, c⟩ := slash_ok_fields hf
        unfold farmInv
        rw [a, b, c]
        exact hInv
    | configOp upd =>
      simp only [applyOp] at hap
      split at hap
      · exact Except.noConfusion hap
      · rename_i f hf
        injection hap with h1
        subst h1
        exact update_farm_config_preserves_inv hInv hf

/-- Claim C1: the Farm State invariant — `total_shares = 0` exactly when
`total_staked_tokens = 0`, and a nonzero deposit cap bounds the staked
total — holds in every state reachable by any sequence of engine
operations (stake, unstake, harvest, refresh, withdraw, slash, admin
config mutation) from a state satisfying it; every operation preserves
the predicate. -/
theorem farm_invariant_preserved (st : EngineState) (hInv : farmInv st.farm)
    (ops : List EngineOp) : farmInv (runOps ops st).farm := by
  induction ops generalizing st with
  | nil => exact hInv
  | cons op rest ih => exact ih _ (runOp_preserves_inv hInv)

/-- Witness for C1: after a stake of five tokens and an unstake of two
whole shares from the fresh state, the invariant still holds. -/
theorem farm_invariant_preserved_witness :
    farmInv (runOps [.stakeOp 0 5, .unstakeOp 1 (2 * WAD)] st0).farm :=
  farm_invariant_preserved st0 (by decide) [.stakeOp 0 5, .unstakeOp 1 (2 * WAD)]

/-- Claim C2: when an engine operation returns an error, the persisted
state is exactly the input state — no field of the farm, reward-slot or
user records is mutated; requests fail atomically with no partial
mutation. -/
theorem request_fails_atomically (op : EngineOp) (st : EngineState) (e : FarmError)
    (h : applyOp op st = .error e) : runOp op st = st := by
  unfold runOp
  rw [h]

/-- Witness for C2: a zero-amount stake fails with `StakeZero` and leaves
the fresh state untouched. -/
theorem request_fails_atomically_witness : runOp (.stakeOp 0 0) st0 = st0 :=
  request_fails_atomically (.stakeOp 0 0) st0 .StakeZero rfl

lemma curveEval_eq_specAccrued : ∀ (c : List CurvePoint) (lo hi : Nat),
    curveEval c lo hi = specAccrued c lo hi
  | [], _, _ => rfl
  | [(t, r)], lo, hi => by
    simp [curveEval, specAccrued, curveSegments]
  | (t, r) :: (t2, r2) :: rest, lo, hi => by
    have ih := curveEval_eq_specAccrued ((t2, r2) :: rest) lo hi
    simp only [curveEval, specAccrued, curveSegments, List.map_cons, List.sum_cons] at ih ⊢
    rw [ih]

lemma curveEval_empty_interval : ∀ (c : List CurvePoint) (lo : Nat),
    curveEval c lo lo = 0
  | [], _ => rfl
  | [(t, r)], lo => by
    have h0 : lo - max lo t = 0 := Nat.sub_eq_zero_of_le (Nat.le_max_left lo t)
    simp only [curveEval, h0, Nat.mul_zero]
  | (t, r) :: (t2, r2) :: rest, lo => by
    have ih := curveEval_empty_interval ((t2, r2) :: rest) lo
    have h0 : min lo t2 - max lo t = 0 :=
      Nat.sub_eq_zero_of_le (Nat.le_trans (Nat.min_le_left lo t2) (Nat.le_max_left lo t))
    simp only [curveEval, h0, Nat.mul_zero, Nat.zero_add, ih]

lemma strictlyIncreasingTs_cons_cons {t r t2 r2 : Nat} {rest : List CurvePoint}
    (h : strictlyIncreasingTs ((t, r) :: (t2, r2) :: rest) = true) :
    t < t2 ∧ strictlyIncreasingTs ((t2, r2) :: rest) = true := by
  unfold strictlyIncreasingTs at h
  rw [Bool.and_eq_true, decide_eq_true_eq] at h
  exact h

lemma curveEval_before_first : ∀ (rest : List CurvePoint) (t r lo hi : Nat),
    strictlyIncreasingTs ((t, r) :: rest) = true → hi ≤ t →
    curveEval ((t, r) :: rest) lo hi = 0
  | [], t, r, lo, hi, _, hle => by
    have h0 : hi - max lo t = 0 :=
      Nat.sub_eq_zero_of_le (Nat.le_trans hle (Nat.le_max_right lo t))
    simp only [curveEval, h0, Nat.mul_zero]
  | (t2, r2) :: rest, t, r, lo, hi, hinc, hle => by
    obtain ⟨hlt, hinc2⟩ := strictlyIncreasingTs_cons_cons hinc
    have ih := curveEval_before_first rest t2 r2 lo hi hinc2
      (Nat.le_trans hle (Nat.le_of_lt hlt))
    have h0 : min hi t2 - max lo t = 0 :=
      Nat.sub_eq_zero_of_le (Nat.le_trans (Nat.min_le_left hi t2)
        (Nat.le_trans hle (Nat.le_max_right lo t)))
    simp only [curveEval, h0, Nat.mul_zero, Nat.zero_add, ih]

lemma ts_le_getLastD : ∀ (rest : List CurvePoint) (p : CurvePoint),
    strictlyIncreasingTs (p :: rest) = true → p.1 ≤ (rest.getLastD p).1
  | [], p, _ => Nat.le_refl _
  | q :: rest, p, h => by
    obtain ⟨hlt, h2⟩ :=
      @strictlyIncreasingTs_cons_cons p.1 p.2 q.1 q.2 rest (by simpa using h)
    have ih := ts_le_getLastD rest q (by simpa using h2)
    calc p.1 ≤ q.1 := Nat.le_of_lt hlt
    _ ≤ (rest.getLastD q).1 := ih
    _ = ((q :: rest).getLastD p).1 := by rw [List.getLastD_cons]

lemma curveEval_last_extends : ∀ (rest : List CurvePoint) (p : CurvePoint) (lo hi : Nat),
    strictlyIncreasingTs (p :: rest) = true → (rest.getLastD p).1 ≤ lo → lo ≤ hi →
    curveEval (p :: rest) lo hi = (rest.getLastD p).2 * (hi - lo)
  | [], p, lo, hi, _, hlast, _ => by
    have hmax : max lo p.1 = lo := Nat.max_eq_left hlast
    show curveEval [(p.1, p.2)] lo hi = p.2 * (hi - lo)
    simp only [curveEval, hmax]
  | q :: rest, p, lo, hi, hinc, hlast, hlh => by
    obtain ⟨hlt, hinc2⟩ :=
      @strictlyIncreasingTs_cons_cons p.1 p.2 q.1 q.2 rest (by simpa using hinc)
    rw [List.getLastD_cons] at hlast
    have hq : q.1 ≤ lo :=
      Nat.le_trans (ts_le_getLastD rest q (by simpa using hinc2)) hlast
    have ih := curveEval_last_extends rest q lo hi (by simpa using hinc2) hlast hlh
    have h0 : min hi q.1 - max lo p.1 = 0 :=
      Nat.sub_eq_zero_of_le (Nat.le_trans (Nat.min_le_right hi q.1)
        (Nat.le_trans hq (Nat.le_max_left lo p.1)))
    show curveEval ((p.1, p.2) :: (q.1, q.2) :: rest) lo hi =
      ((q :: rest).getLastD p).2 * (hi - lo)
    rw [List.getLastD_cons]
    simp only [curveEval, h0, Nat.mul_zero, Nat.zero_add]
    simpa using ih

/-- Claim C4: over a strictly increasing rate curve and an interval
`[lo, hi]` with `lo ≤ hi`, the evaluated accrual equals the sum over
overlapping segments of `r_i * (min hi t_next - max lo t_i)`; an empty
interval yields zero; an interval entirely before the first point yields
zero; and past the last point the last rate extends indefinitely. -/
theorem curve_evaluation_spec (c : List CurvePoint) (lo hi : Nat) (p : CurvePoint) :
    (strictlyIncreasingTs c = true → lo ≤ hi →
      curveEval c lo hi = specAccrued c lo hi) ∧
    curveEval c lo lo = 0 ∧
    (strictlyIncreasingTs (p :: c) = true → hi ≤ p.1 →
      curveEval (p :: c) lo hi = 0) ∧
    (strictlyIncreasingTs (p :: c) = true → (c.getLastD p).1 ≤ lo → lo ≤ hi →
      curveEval (p :: c) lo hi = (c.getLastD p).2 * (hi - lo)) :=
  ⟨fun _ _ => curveEval_eq_specAccrued c lo hi,
   curveEval_empty_interval c lo,
   fun hinc hle => curveEval_before_first c p.1 p.2 lo hi (by simpa using hinc) hle,
   fun hinc hlast hlh => curveEval_last_extends c p lo hi hinc hlast hlh⟩

/-- Witness for C4: a two-segment curve evaluated over `[0, 20]` matches
the segment-sum formula, and a one-point curve over the empty interval
`[5, 5]` (which also lies at and before the point) accrues nothing. -/
theorem curve_evaluation_spec_witness :
    curveEval [(0, 2), (10, 3)] 0 20 = specAccrued [(0, 2), (10, 3)] 0 20 ∧
    curveEval [(5, 7)] 5 5 = 0 :=
  ⟨(curve_evaluation_spec [(0, 2), (10, 3)] 0 20 (0, 0)).1 (by decide) (by decide),
   (curve_evaluation_spec [] 5 5 (5, 7)).2.2.1 (by decide) (by decide)⟩

lemma round_trip_bound {S T a m : Nat} (hrate : T ≤ S) (hIff : S = 0 ↔ T = 0)
    (ha : a ≠ 0)
    (hm : m = if T = 0 then a * WAD else a * S / T) :
    m * (T + a) / (S + m) ≤ a ∧ a - m * (T + a) / (S + m) ≤ 1 := by
  by_cases hT : T = 0
  · have hS : S = 0 := hIff.mpr hT
    subst hT
    subst hS
    rw [if_pos rfl] at hm
    have hmpos : 0 < m := by
      rw [hm]
      have hw : 0 < WAD := by decide
      exact Nat.mul_pos (Nat.pos_of_ne_zero ha) hw
    have hexact : m * (0 + a) / (0 + m) = a := by
      rw [Nat.zero_add, Nat.zero_add, Nat.mul_comm, Nat.mul_div_cancel _ hmpos]
    rw [hexact]
    omega
  · rw [if_neg hT] at hm
    have hTpos : 0 < T := Nat.pos_of_ne_zero hT
    have hSpos : 0 < S := Nat.lt_of_lt_of_le hTpos hrate
    have hSm : 0 < S + m := Nat.lt_of_lt_of_le hSpos (Nat.le_add_right S m)
    have hmT : m * T ≤ a * S := by
      rw [hm]
      exact Nat.div_mul_le_self (a * S) T
    have hub : m * (T + a) ≤ a * (S + m) := by
      calc m * (T + a) = m * T + m * a := Nat.mul_add m T a
      _ ≤ a * S + m * a := Nat.add_le_add_right hmT _
      _ = a * S + a * m := by rw [Nat.mul_comm m a]
      _ = a * (S + m) := (Nat.mul_add a S m).symm
    have hle : m * (T + a) / (S + m) ≤ a := by
      have h1 := Nat.div_le_div_right (c := S + m) hub
      rw [Nat.mul_div_cancel _ hSm] at h1
      exact h1
    refine ⟨hle, ?_⟩
    obtain ⟨b, hb⟩ : ∃ b, a = b + 1 := ⟨a - 1, by omega⟩
    subst hb
    have hmod : (b + 1) * S % T < T := Nat.mod_lt _ hTpos
    have hdm : T * m + (b + 1) * S % T = (b + 1) * S := by
      have hx := Nat.div_add_mod ((b + 1) * S) T
      rw [← hm] at hx
      exact hx
    have hsplit : (b + 1) * S = b * S + S := Nat.succ_mul b S
    have hbs : b * S < T * m := by
      have h1 : b * S + S < T * m + S := by
        rw [← hdm] at hsplit
        have h2 : (b + 1) * S % T < S := Nat.lt_of_lt_of_le hmod hrate
        omega
      exact Nat.lt_of_add_lt_add_right h1
    have hlow : b ≤ m * (T + (b + 1)) / (S + m) := by
      rw [Nat.le_div_iff_mul_le hSm]
      calc b * (S + m) = b * S + b * m := Nat.mul_add b S m
      _ ≤ T * m + b * m := Nat.add_le_add_right (Nat.le_of_lt hbs) _
      _ ≤ T * m + b * m + m := Nat.le_add_right _ m
      _ = m * (T + (b + 1)) := by ring
    omega

/-- Counterexample for C7 as stated: on `cexFarm` (one scaled share unit
backing a thousand tokens, zero reward curve, zero lock), staking 1500
tokens and immediately unstaking all of the user's shares returns a
pending withdrawal of only 1250 tokens — the round trip loses 250 units,
far more than the one unit the claim allows. -/
theorem round_trip_counterexample :
    roundTrip 0 0 1500 cexFarm cexUser = some 1250 ∧ 1 < 1500 - 1250 :=
  ⟨rfl, by decide⟩

/-- Claim C7 (amended): the stake-then-unstake-all round trip on a farm
with a zero reward curve returns the staked amount up to one unit of
truncation, provided the farm's exchange rate is at most one token per
minimal scaled share unit (`total_staked_tokens ≤ total_shares`, which
holds for every farm opened at the 1:1 rate whose rate has only drifted
down); without that rate bound the truncation loss can exceed one unit,
as `round_trip_counterexample` shows. -/
theorem round_trip_bounded {now1 now2 a back : Nat} {farm : FarmState}
    {user : UserState}
    (hInv : farmInv farm)
    (hrate : farm.totalStakedTokens ≤ farm.totalShares)
    (hzero : ∀ sl ∈ farm.rewardSlots, ∀ q ∈ sl.rateCurve, q.2 = 0)
    (huser : user.stakedShares = 0)
    (hlock : farm.lockDuration ≤ now2 - now1)
    (h : roundTrip now1 now2 a farm user = some back) :
    back ≤ a ∧ a - back ≤ 1 := by
  unfold roundTrip at h
  split at h
  · exact Option.noConfusion h
  · rename_i f1 u1 hst
    split at h
    · exact Option.noConfusion h
    · rename_i f2 u2 hun
      split at h
      · exact Option.noConfusion h
      · rename_i pw hpw
        injection h with hback
        obtain ⟨ha, hfS, hfT, -, hfL, -, huSh, huTs, -, -⟩ := stake_ok_spec hst
        obtain ⟨-, -, -, -, -, -, -, -, pw2, hpw2, -, hamt⟩ := unstake_ok_spec hun
        rw [hpw] at hpw2
        injection hpw2 with hpweq
        subst hpweq
        have hlockOk : f1.lockDuration ≤ now2 - u1.lastStakeTs := by
          rw [hfL, huTs]
          exact hlock
        have hamt2 := hamt hlockOk
        rw [huser, Nat.zero_add] at huSh
        have hform : pw.amount =
            mintedShares farm a *
              (farm.totalStakedTokens + a) /
              (farm.totalShares + mintedShares farm a) := by
          rw [hamt2]
          unfold unstakeTokenAmount
          rw [hfT, hfS, huSh]
        have hbound := round_trip_bound (S := farm.totalShares)
          (T := farm.totalStakedTokens) (a := a) (m := mintedShares farm a)
          hrate hInv.1 ha rfl
        rw [← hform] at hbound
        rw [← hback]
        exact hbound

/-- Witness for the amended C7: staking three tokens into the 1:1 farm
`w7Farm` and unstaking all shares at time 7 returns exactly three tokens. -/
theorem round_trip_bounded_witness : (3 : Nat) ≤ 3 ∧ (3 : Nat) - 3 ≤ 1 :=
  @round_trip_bounded 0 7 3 3 w7Farm w7User
    (by decide) (by decide) (by simp [w7Farm]) rfl (by decide) rfl

lemma globalConfigOptionTryFrom_error {mode : Nat} {e : FarmError}
    (h : globalConfigOptionTryFrom mode = .error e) : e = .InvalidGlobalConfigMode := by
  unfold globalConfigOptionTryFrom at h
  split at h
  · exact Except.noConfusion h
  · split at h
    · exact Except.noConfusion h
    · split at h
      · exact Except.noConfusion h
      · injection h with h1
        exact h1.symm

/-- Claim C8: an `update_global_config` request validates the option tag
and the value before applying anything — an unrecognized tag byte fails
with `InvalidGlobalConfigMode`, every failure leaves the configuration
record unchanged, and every failure is one of the four advertised
validation errors. -/
theorem update_global_config_validates (mode : Nat) (value : List Nat)
    (cfg : GlobalConfig) :
    (¬(mode = 0 ∨ mode = 1 ∨ mode = 2) →
      update_global_config mode value cfg = .error .InvalidGlobalConfigMode) ∧
    (∀ e, update_global_config mode value cfg = .error e →
      runUpdateGlobalConfig mode value cfg = cfg) ∧
    (∀ e, update_global_config mode value cfg = .error e →
      e = .InvalidGlobalConfigMode ∨ e = .InvalidConfigValue ∨
      e = .InvalidPenaltyPercentage ∨ e = .InvalidLockingTimestamps) := by
  refine ⟨?_, ?_, ?_⟩
  · intro hmode
    have htf : globalConfigOptionTryFrom mode = .error .InvalidGlobalConfigMode := by
      unfold globalConfigOptionTryFrom
      rw [if_neg (by tauto), if_neg (by tauto), if_neg (by tauto)]
    simp only [update_global_config, htf]
  · intro e he
    unfold runUpdateGlobalConfig
    rw [he]
  · intro e he
    unfold update_global_config at he
    cases htf : globalConfigOptionTryFrom mode with
    | error e0 =>
      rw [htf] at he
      simp only at he
      injection he with h1
      subst h1
      exact Or.inl (globalConfigOptionTryFrom_error htf)
    | ok opt =>
      rw [htf] at he
      cases opt with
      | setPaused =>
        simp only at he
        split at he
        · exact Except.noConfusion he
        · exact Except.noConfusion he
        · injection he with h1
          subst h1
          exact Or.inr (Or.inl rfl)
      | setProtocolFeeBps =>
        simp only at he
        split at he
        · exact Except.noConfusion he
        · injection he with h1
          subst h1
          exact Or.inr (Or.inl rfl)
      | setAdminKey =>
        simp only at he
        exact Except.noConfusion he

/-- Witness for C8: tag byte 7 is unrecognized, fails with
`InvalidGlobalConfigMode`, and leaves `cfg0` unchanged. -/
theorem update_global_config_validates_witness :
    update_global_config 7 [] cfg0 = .error .InvalidGlobalConfigMode ∧
    runUpdateGlobalConfig 7 [] cfg0 = cfg0 :=
  ⟨(update_global_config_validates 7 [] cfg0).1 (by decide),
   (update_global_config_validates 7 [] cfg0).2.1 .InvalidGlobalConfigMode
     ((update_global_config_validates 7 [] cfg0).1 (by decide))⟩

/-- Claim C9: the `From<DecimalError>` conversion maps every decimal-
arithmetic error to `MathOverflow`, and in particular never to
`IntegerOverflow` or `ConversionFailure` or any other variant. -/
theorem decimal_error_always_math_overflow :
    (∀ e : DecimalError, farmErrorFromDecimalError e = FarmError.MathOverflow) ∧
    (∀ e : DecimalError, farmErrorFromDecimalError e ≠ FarmError.IntegerOverflow ∧
      farmErrorFromDecimalError e ≠ FarmError.ConversionFailure) := by
  refine ⟨fun e => ?_, fun e => ?_⟩
  · cases e
    rfl
  · cases e
    exact ⟨by decide, by decide⟩

/-- Claim C10: the public unstake entrypoint forwards
`Decimal::from_scaled_val` of the raw `u128` to the unstake handler
unchanged — the scaled representation is exactly the input integer, with
no range validation, rounding or rescaling at the dispatch boundary. -/
theorem unstake_dispatch_forwards_scaled (s now : Nat) (farm : FarmState)
    (user : UserState) (hs : s < U128_BOUND) :
    unstakeDispatch s now farm user = unstake now ⟨s⟩ farm user ∧
    (Decimal.from_scaled_val s).scaledVal = s :=
  ⟨rfl, rfl⟩

/-- Witness for C10: even the maximal `u128` value is forwarded verbatim. -/
theorem unstake_dispatch_forwards_scaled_witness :
    unstakeDispatch (2 ^ 128 - 1) 0 initFarm initUser =
      unstake 0 ⟨2 ^ 128 - 1⟩ initFarm initUser ∧
    (Decimal.from_scaled_val (2 ^ 128 - 1)).scaledVal = 2 ^ 128 - 1 :=
  unstake_dispatch_forwards_scaled (2 ^ 128 - 1) 0 initFarm initUser (by decide)

end KFarms
